import Mathlib

/-!
Verification of the todo data-access layer (`src/db.py`).

The layer keeps one SQLite table `todos` with columns
`id INTEGER PRIMARY KEY AUTOINCREMENT`, `text TEXT NOT NULL`,
`completed INTEGER NOT NULL DEFAULT 0`, and exposes five operations:
`add_todo`, `list_todos`, `complete_todo`, `delete_todo`,
`update_todo_text`.  Write operations validate their text input through the
pydantic model `TodoSchema` before touching storage.

The embedding below is shallow and pure: the table is a list of rows plus
the AUTOINCREMENT sequence counter, each operation is a state-passing
function, and validation failure is an `Except.error`.  A separate, small
trace model captures the connection open/close discipline of each
operation, which is what the resource-safety claim is about.
-/

/-- A row of the `todos` table: `id`, `text`, `completed`. -/
structure Todo where
  id : Int
  text : String
  completed : Bool
deriving Repr, DecidableEq

/-- The persisted store: the rows of the `todos` table (in insertion
order) together with the AUTOINCREMENT sequence value, i.e. the largest
rowid ever handed out (0 when none has been). -/
structure DB where
  rows : List Todo
  seq : Int
deriving Repr, DecidableEq

/-- The state of the freshly created table, as built by `init_db`. -/
def DB.init : DB := { rows := [], seq := 0 }

/-- The failure modes of `TodoSchema` (pydantic): `min_length=1`,
`max_length=255`, the whitespace-only check of `validate_title`, and the
`gt=0` bound on the optional `id` field. -/
inductive ValidationError where
  | titleTooShort : ValidationError
  | titleTooLong : ValidationError
  | titleBlank : ValidationError
  | idNotPositive : ValidationError
deriving Repr, DecidableEq

/-- Python's `str.strip()`: drop leading and trailing whitespace
characters. -/
def pyStrip (s : String) : String :=
  String.mk (((s.data.dropWhile Char.isWhitespace).reverse.dropWhile Char.isWhitespace).reverse)

/-- `TodoSchema(title=..., id=...)`: the `Field` constraints
`min_length=1` / `max_length=255` check the raw title, then
`validate_title` rejects a whitespace-only title and returns
`title.strip()`; the optional `id` must be `> 0` when present.  Success
yields the stripped title. -/
def TodoSchema (title : String) (idOpt : Option Int) : Except ValidationError String :=
  if title.length < 1 then .error .titleTooShort
  else if 255 < title.length then .error .titleTooLong
  else if pyStrip title = "" then .error .titleBlank
  else
    match idOpt with
    | none => .ok (pyStrip title)
    | some i => if 0 < i then .ok (pyStrip title) else .error .idNotPositive

/-- The largest `id` present in a list of rows, 0 for the empty list. -/
def maxRowId (rows : List Todo) : Int :=
  rows.foldr (fun t m => max t.id m) 0

/-- The rowid SQLite AUTOINCREMENT assigns to the next insert: one more
than the larger of the sequence value and the largest existing rowid. -/
def nextId (db : DB) : Int :=
  max db.seq (maxRowId db.rows) + 1

/-- `add_todo(text)`: validate via `TodoSchema(title=text)`, then
`INSERT INTO todos (text) VALUES (?)` and return `lastrowid`. -/
def add_todo (db : DB) (text : String) : Except ValidationError (DB × Int) :=
  match TodoSchema text none with
  | .error e => .error e
  | .ok title =>
    .ok ({ rows := db.rows ++ [{ id := nextId db, text := title, completed := false }],
           seq := nextId db },
         nextId db)

/-- Insert a row into a list that is sorted by ascending `id`. -/
def insertById (t : Todo) : List Todo → List Todo
  | [] => [t]
  | u :: us => if t.id ≤ u.id then t :: u :: us else u :: insertById t us

/-- Sort rows by ascending `id`, the order of `ORDER BY id`. -/
def sortById (rows : List Todo) : List Todo :=
  rows.foldr insertById []

/-- `list_todos()`: `SELECT * FROM todos ORDER BY id`, every row. -/
def list_todos (db : DB) : List Todo :=
  sortById db.rows

/-- The rows after `UPDATE todos SET completed = 1 WHERE id = ?`. -/
def completedRows (rows : List Todo) (todo_id : Int) : List Todo :=
  rows.map (fun t => if t.id == todo_id then { t with completed := true } else t)

/-- `complete_todo(todo_id)`: `UPDATE todos SET completed = 1 WHERE id = ?`;
the returned `changes` is `cursor.rowcount`, the number of rows the
`WHERE` clause matched. -/
def complete_todo (db : DB) (todo_id : Int) : DB × Nat :=
  ({ db with rows := completedRows db.rows todo_id },
   (db.rows.filter (fun t => t.id == todo_id)).length)

/-- `delete_todo(todo_id)`: `SELECT` the row first; when present,
`DELETE FROM todos WHERE id = ?` and return the pre-deletion snapshot;
when absent, return `None` and leave the table alone. -/
def delete_todo (db : DB) (todo_id : Int) : DB × Option Todo :=
  match db.rows.find? (fun t => t.id == todo_id) with
  | some row =>
    ({ db with rows := db.rows.filter (fun t => !(t.id == todo_id)) }, some row)
  | none => (db, none)

/-- The rows after `UPDATE todos SET text = ? WHERE id = ?` with new
text `title`. -/
def updatedRows (rows : List Todo) (todo_id : Int) (title : String) : List Todo :=
  rows.map (fun t => if t.id == todo_id then { t with text := title } else t)

/-- `update_todo_text(todo_id, text)`: validate via
`TodoSchema(title=text, id=todo_id)`, run the `UPDATE`, and when
`cursor.rowcount > 0` re-`SELECT` the row and return it; otherwise
return `None`. -/
def update_todo_text (db : DB) (todo_id : Int) (text : String) :
    Except ValidationError (DB × Option Todo) :=
  match TodoSchema text (some todo_id) with
  | .error e => .error e
  | .ok title =>
    if 0 < (db.rows.filter (fun t => t.id == todo_id)).length then
      .ok ({ db with rows := updatedRows db.rows todo_id title },
           (updatedRows db.rows todo_id title).find? (fun t => t.id == todo_id))
    else
      .ok (db, none)

/-- One call against the store, for reasoning about reachable states. -/
inductive Op where
  | add (text : String)
  | complete (todo_id : Int)
  | delete (todo_id : Int)
  | update (todo_id : Int) (text : String)

/-- The store after one call; a call that raises `ValidationError`
leaves the store untouched. -/
def applyOp (db : DB) : Op → DB
  | .add t =>
    match add_todo db t with
    | .ok (db', _) => db'
    | .error _ => db
  | .complete i => (complete_todo db i).1
  | .delete i => (delete_todo db i).1
  | .update i t =>
    match update_todo_text db i t with
    | .ok (db', _) => db'
    | .error _ => db

/-- The store after a sequence of calls. -/
def runOps (db : DB) : List Op → DB
  | [] => db
  | op :: ops => runOps (applyOp db op) ops

/-- The ids handed out by the successful `add_todo` calls of a run, in
call order. -/
def assignedIds (db : DB) : List Op → List Int
  | [] => []
  | .add t :: ops =>
    match add_todo db t with
    | .ok (db', i) => i :: assignedIds db' ops
    | .error _ => assignedIds db ops
  | op :: ops => assignedIds (applyOp db op) ops

theorem le_maxRowId {rows : List Todo} {t : Todo} (h : t ∈ rows) : t.id ≤ maxRowId rows := by
  induction rows with
  | nil => cases h
  | cons u us ih =>
    rcases List.mem_cons.mp h with rfl | hu
    · exact le_max_left _ _
    · exact le_trans (ih hu) (le_max_right _ _)

theorem maxRowId_nonneg (rows : List Todo) : 0 ≤ maxRowId rows := by
  induction rows with
  | nil => exact le_refl 0
  | cons u us ih => exact le_trans ih (le_max_right _ _)

theorem nextId_pos (db : DB) : 0 < nextId db := by
  have h := le_trans (maxRowId_nonneg db.rows) (le_max_right db.seq (maxRowId db.rows))
  unfold nextId
  omega

theorem seq_lt_nextId (db : DB) : db.seq < nextId db := by
  have h := le_max_left db.seq (maxRowId db.rows)
  unfold nextId
  omega

theorem lt_nextId_of_mem {db : DB} {t : Todo} (h : t ∈ db.rows) : t.id < nextId db := by
  have h1 := le_maxRowId h
  have h2 := le_max_right db.seq (maxRowId db.rows)
  unfold nextId
  omega

theorem insertById_perm (t : Todo) (l : List Todo) : (insertById t l).Perm (t :: l) := by
  induction l with
  | nil => exact List.Perm.refl _
  | cons u us ih =>
    by_cases h : t.id ≤ u.id
    · simp [insertById, h]
    · simp only [insertById, if_neg h]
      exact ((ih.cons u).trans (List.Perm.swap t u us))

theorem sortById_perm (l : List Todo) : (sortById l).Perm l := by
  induction l with
  | nil => exact List.Perm.refl _
  | cons u us ih =>
    exact (insertById_perm u (sortById us)).trans (ih.cons u)

theorem mem_insertById {t x : Todo} {l : List Todo} :
    x ∈ insertById t l ↔ x = t ∨ x ∈ l := by
  constructor
  · intro h
    have := (insertById_perm t l).mem_iff.mp h
    simpa using this
  · intro h
    apply (insertById_perm t l).mem_iff.mpr
    simpa using h

theorem insertById_sorted {l : List Todo} (t : Todo)
    (h : l.Pairwise (fun a b => a.id ≤ b.id)) :
    (insertById t l).Pairwise (fun a b => a.id ≤ b.id) := by
  induction l with
  | nil => simp [insertById]
  | cons u us ih =>
    rcases List.pairwise_cons.mp h with ⟨hu, hus⟩
    by_cases hle : t.id ≤ u.id
    · simp only [insertById, if_pos hle]
      refine List.pairwise_cons.mpr ⟨?_, h⟩
      intro x hx
      rcases List.mem_cons.mp hx with rfl | hxus
      · exact hle
      · exact le_trans hle (hu x hxus)
    · simp only [insertById, if_neg hle]
      refine List.pairwise_cons.mpr ⟨?_, ih hus⟩
      intro x hx
      rcases mem_insertById.mp hx with rfl | hxus
      · exact le_of_lt (lt_of_not_le hle)
      · exact hu x hxus

theorem sortById_sorted (l : List Todo) :
    (sortById l).Pairwise (fun a b => a.id ≤ b.id) := by
  induction l with
  | nil => simp [sortById]
  | cons u us ih => exact insertById_sorted u ih

theorem sortById_sorted_lt {l : List Todo} (h : (l.map Todo.id).Nodup) :
    (sortById l).Pairwise (fun a b => a.id < b.id) := by
  have hperm : ((sortById l).map Todo.id).Perm (l.map Todo.id) :=
    (sortById_perm l).map Todo.id
  have hnd : ((sortById l).map Todo.id).Nodup := hperm.nodup_iff.mpr h
  have hne : (sortById l).Pairwise (fun a b => a.id ≠ b.id) :=
    (List.pairwise_map).mp hnd
  have hle := sortById_sorted l
  exact (hle.and hne).imp (fun hab => lt_of_le_of_ne hab.1 hab.2)

theorem filter_id_eq_single {rows : List Todo} {i : Int} {t : Todo}
    (hnd : (rows.map Todo.id).Nodup) (ht : t ∈ rows) (hi : t.id = i) :
    rows.filter (fun u => u.id == i) = [t] := by
  induction rows with
  | nil => cases ht
  | cons u us ih =>
    simp only [List.map_cons, List.nodup_cons] at hnd
    rcases List.mem_cons.mp ht with rfl | hus
    · have hnone : ∀ x ∈ us, ¬((fun u => u.id == i) x = true) := by
        intro x hx hxi
        exact hnd.1 (hi ▸ (beq_iff_eq.mp hxi) ▸ List.mem_map_of_mem Todo.id hx)
      simp only [List.filter_cons, hi, beq_self_eq_true, if_pos]
      rw [List.filter_eq_nil_iff.mpr hnone]
    · have hne : ¬(u.id == i) = true := by
        intro hui
        exact hnd.1 ((beq_iff_eq.mp hui) ▸ hi ▸ List.mem_map_of_mem Todo.id hus)
      simp only [List.filter_cons, hne]
      simpa using ih hnd.2 hus

theorem filter_id_eq_nil {rows : List Todo} {i : Int}
    (h : ∀ t ∈ rows, t.id ≠ i) :
    rows.filter (fun u => u.id == i) = [] := by
  apply List.filter_eq_nil_iff.mpr
  intro x hx hxi
  exact h x hx (beq_iff_eq.mp hxi)

theorem find?_id_eq_some {rows : List Todo} {i : Int} {t : Todo}
    (hnd : (rows.map Todo.id).Nodup) (ht : t ∈ rows) (hi : t.id = i) :
    rows.find? (fun u => u.id == i) = some t := by
  induction rows with
  | nil => cases ht
  | cons u us ih =>
    simp only [List.map_cons, List.nodup_cons] at hnd
    rcases List.mem_cons.mp ht with rfl | hus
    · simp [List.find?_cons, hi]
    · have hne : (u.id == i) = false := by
        rw [beq_eq_false_iff_ne]
        intro hui
        exact hnd.1 (hui ▸ hi ▸ List.mem_map_of_mem Todo.id hus)
      rw [List.find?_cons, hne]
      exact ih hnd.2 hus

theorem find?_id_eq_none {rows : List Todo} {i : Int}
    (h : ∀ t ∈ rows, t.id ≠ i) :
    rows.find? (fun u => u.id == i) = none := by
  apply List.find?_eq_none.mpr
  intro x hx hxi
  exact h x hx (beq_iff_eq.mp hxi)

theorem length_filter_not_add (p : Todo → Bool) (l : List Todo) :
    (l.filter p).length + (l.filter (fun a => !(p a))).length = l.length := by
  induction l with
  | nil => rfl
  | cons u us ih =>
    by_cases h : p u = true
    · simp [List.filter_cons, h, ← ih]
      omega
    · simp [List.filter_cons, h, Bool.not_eq_true _ ▸ h, ← ih]
      omega

theorem pyStrip_length_le (s : String) : (pyStrip s).length ≤ s.length := by
  have h1 : (s.data.dropWhile Char.isWhitespace).length ≤ s.data.length :=
    (List.dropWhile_sublist _).length_le
  have h2 : ((s.data.dropWhile Char.isWhitespace).reverse.dropWhile Char.isWhitespace).length ≤
      (s.data.dropWhile Char.isWhitespace).reverse.length :=
    (List.dropWhile_sublist _).length_le
  simp only [pyStrip, String.length, List.length_reverse] at *
  omega

theorem TodoSchema_ok {title : String}
    (h1 : 1 ≤ (pyStrip title).length) (h2 : title.length ≤ 255) :
    TodoSchema title none = .ok (pyStrip title) := by
  have hlen : 1 ≤ title.length := le_trans h1 (pyStrip_length_le title)
  have hblank : ¬(pyStrip title = "") := by
    intro h
    rw [h] at h1
    have : ("" : String).length = 0 := rfl
    omega
  unfold TodoSchema
  rw [if_neg (by omega), if_neg (by omega), if_neg hblank]

theorem TodoSchema_someId_ok {title : String} {i : Int}
    (h1 : 1 ≤ (pyStrip title).length) (h2 : title.length ≤ 255) (hi : 0 < i) :
    TodoSchema title (some i) = .ok (pyStrip title) := by
  have hlen : 1 ≤ title.length := le_trans h1 (pyStrip_length_le title)
  have hblank : ¬(pyStrip title = "") := by
    intro h
    rw [h] at h1
    have : ("" : String).length = 0 := rfl
    omega
  unfold TodoSchema
  rw [if_neg (by omega), if_neg (by omega), if_neg hblank]
  simp [hi]

theorem TodoSchema_invalid {title : String} (idOpt : Option Int)
    (h : pyStrip title = "" ∨ 255 < title.length) :
    (TodoSchema title idOpt).isOk = false := by
  unfold TodoSchema
  split
  · rfl
  · split
    · rfl
    · split
      · rfl
      · rename_i h1 h2 h3
        rcases h with hb | hl
        · exact absurd hb h3
        · exact absurd hl h2

/-- Claim C1: for text whose stripped form has length between 1 and 255
and whose raw length is at most 255, `add_todo` succeeds, appends exactly
one new row carrying the stripped text, `completed = false` and the
freshly assigned id, returns that id, and a subsequent `list_todos` shows
exactly that one new row on top of the old ones. -/
theorem add_todo_valid (db : DB) (t : String)
    (h1 : 1 ≤ (pyStrip t).length) (h2 : (pyStrip t).length ≤ 255) (h3 : t.length ≤ 255) :
    add_todo db t =
      .ok ({ rows := db.rows ++ [{ id := nextId db, text := pyStrip t, completed := false }],
             seq := nextId db }, nextId db) ∧
    (list_todos { rows := db.rows ++ [{ id := nextId db, text := pyStrip t, completed := false }],
                  seq := nextId db }).Perm
      ({ id := nextId db, text := pyStrip t, completed := false } :: list_todos db) ∧
    (list_todos { rows := db.rows ++ [{ id := nextId db, text := pyStrip t, completed := false }],
                  seq := nextId db }).count
      { id := nextId db, text := pyStrip t, completed := false } = 1 := by
  have hok := TodoSchema_ok h1 h3
  have hnew : ({ id := nextId db, text := pyStrip t, completed := false } : Todo) ∉ db.rows := by
    intro hmem
    exact absurd (lt_nextId_of_mem hmem) (by simp)
  have hperm :
      (list_todos { rows := db.rows ++ [{ id := nextId db, text := pyStrip t, completed := false }],
                    seq := nextId db }).Perm
        ({ id := nextId db, text := pyStrip t, completed := false } :: list_todos db) := by
    simp only [list_todos]
    exact (sortById_perm _).trans
      ((List.perm_append_singleton _ _).trans ((sortById_perm db.rows).symm.cons _))
  refine ⟨?_, hperm, ?_⟩
  · unfold add_todo
    rw [hok]
  · have h0 : (list_todos db).count
        ({ id := nextId db, text := pyStrip t, completed := false } : Todo) = 0 := by
      simp only [list_todos]
      rw [(sortById_perm db.rows).count_eq]
      exact List.count_eq_zero.mpr hnew
    rw [hperm.count_eq, List.count_cons_self, h0]

/-- Concrete run of `add_todo_valid` on the empty store and the text
used by the end-to-end scenario of the specification. -/
theorem add_todo_valid_witness :
    1 ≤ (pyStrip "Buy milk").length ∧ (pyStrip "Buy milk").length ≤ 255 ∧
      ("Buy milk" : String).length ≤ 255 ∧
    (add_todo DB.init "Buy milk" =
      .ok ({ rows := DB.init.rows ++
               [{ id := nextId DB.init, text := pyStrip "Buy milk", completed := false }],
             seq := nextId DB.init }, nextId DB.init) ∧
    (list_todos { rows := DB.init.rows ++
                    [{ id := nextId DB.init, text := pyStrip "Buy milk", completed := false }],
                  seq := nextId DB.init }).Perm
      ({ id := nextId DB.init, text := pyStrip "Buy milk", completed := false } ::
        list_todos DB.init) ∧
    (list_todos { rows := DB.init.rows ++
                    [{ id := nextId DB.init, text := pyStrip "Buy milk", completed := false }],
                  seq := nextId DB.init }).count
      { id := nextId DB.init, text := pyStrip "Buy milk", completed := false } = 1) :=
  ⟨by decide, by decide, by decide,
   add_todo_valid DB.init "Buy milk" (by decide) (by decide) (by decide)⟩

/-- A one-row store used by concrete witnesses, matching the first step
of the end-to-end scenario. -/
def dbOne : DB := { rows := [{ id := 1, text := "Buy milk", completed := false }], seq := 1 }

/-- A 256-character title, one over the `max_length=255` bound. -/
def longTitle : String := String.mk (List.replicate 256 'a')

/-- Claim C5: adding an empty, whitespace-only, or over-255-character
text raises `ValidationError` and, the validation running before any
storage access, leaves the store exactly as it was: no row is inserted. -/
theorem add_todo_invalid (db : DB) (t : String)
    (h : pyStrip t = "" ∨ 255 < t.length) :
    (add_todo db t).isOk = false ∧ applyOp db (.add t) = db := by
  have hv := TodoSchema_invalid none h
  cases hx : TodoSchema t none with
  | ok v =>
    rw [hx] at hv
    exact absurd hv (by simp [Except.isOk, Except.toBool])
  | error e =>
    constructor
    · simp [add_todo, hx, Except.isOk, Except.toBool]
    · simp [applyOp, add_todo, hx]

set_option maxRecDepth 4000 in
/-- Concrete runs of `add_todo_invalid`: the empty title, the
whitespace-only title and the 256-character title all fail against the
empty store and leave it empty. -/
theorem add_todo_invalid_witness :
    ((add_todo DB.init "").isOk = false ∧ applyOp DB.init (.add "") = DB.init) ∧
    ((add_todo DB.init "   ").isOk = false ∧ applyOp DB.init (.add "   ") = DB.init) ∧
    ((add_todo DB.init longTitle).isOk = false ∧
      applyOp DB.init (.add longTitle) = DB.init) :=
  ⟨add_todo_invalid DB.init "" (Or.inl (by decide)),
   add_todo_invalid DB.init "   " (Or.inl (by decide)),
   add_todo_invalid DB.init longTitle (Or.inr (by decide))⟩

/-- Claim C4: `update_todo_text` with invalid text (blank after
stripping, or longer than 255 characters) raises `ValidationError` and
leaves the whole store untouched, whether or not a row with the given id
exists: validation runs before the existence check and before any
mutation. -/
theorem update_todo_text_invalid (db : DB) (i : Int) (t : String)
    (h : pyStrip t = "" ∨ 255 < t.length) :
    (update_todo_text db i t).isOk = false ∧ applyOp db (.update i t) = db := by
  have hv := TodoSchema_invalid (some i) h
  cases hx : TodoSchema t (some i) with
  | ok v =>
    rw [hx] at hv
    exact absurd hv (by simp [Except.isOk, Except.toBool])
  | error e =>
    constructor
    · simp [update_todo_text, hx, Except.isOk, Except.toBool]
    · simp [applyOp, update_todo_text, hx]

/-- Concrete runs of `update_todo_text_invalid`: blank text against an
existing id and empty text against an absent id both fail and leave the
one-row store unchanged. -/
theorem update_todo_text_invalid_witness :
    ((update_todo_text dbOne 1 "   ").isOk = false ∧
      applyOp dbOne (.update 1 "   ") = dbOne) ∧
    ((update_todo_text dbOne 99 "").isOk = false ∧
      applyOp dbOne (.update 99 "") = dbOne) :=
  ⟨update_todo_text_invalid dbOne 1 "   " (Or.inl (by decide)),
   update_todo_text_invalid dbOne 99 "" (Or.inl (by decide))⟩

/-- Claim C2: `complete_todo` reports 1 affected row exactly when a row
with the id exists and 0 otherwise, sets that row's `completed` flag to
true while touching nothing else (other rows, ids, the sequence), does
nothing on an absent id, and is idempotent. -/
theorem completedRows_map_id (rows : List Todo) (i : Int) :
    (completedRows rows i).map Todo.id = rows.map Todo.id := by
  simp only [completedRows, List.map_map]
  apply List.map_congr_left
  intro t ht
  by_cases h : t.id = i
  · simp [Function.comp, h]
  · simp [Function.comp, h]

theorem completedRows_idem (rows : List Todo) (i : Int) :
    completedRows (completedRows rows i) i = completedRows rows i := by
  simp only [completedRows, List.map_map]
  apply List.map_congr_left
  intro t ht
  by_cases h : t.id = i
  · simp [Function.comp, h]
  · simp [Function.comp, h]

theorem completedRows_filter_length (rows : List Todo) (i : Int) :
    ((completedRows rows i).filter (fun t => t.id == i)).length =
      (rows.filter (fun t => t.id == i)).length := by
  rw [← List.countP_eq_length_filter, ← List.countP_eq_length_filter,
    completedRows, List.countP_map]
  apply List.countP_congr
  intro t ht
  by_cases h : t.id = i
  · simp [Function.comp, h]
  · simp [Function.comp, h]

theorem complete_todo_of_absent (db : DB) (i : Int)
    (h : ∀ t ∈ db.rows, t.id ≠ i) : complete_todo db i = (db, 0) := by
  have hm : completedRows db.rows i = db.rows := by
    simp only [completedRows]
    conv_rhs => rw [← List.map_id db.rows]
    apply List.map_congr_left
    intro t ht
    simp [h t ht]
  have hf := filter_id_eq_nil h
  simp only [complete_todo]
  rw [hm, hf]
  rfl

theorem delete_todo_of_absent (db : DB) (i : Int)
    (h : ∀ t ∈ db.rows, t.id ≠ i) : delete_todo db i = (db, none) := by
  simp only [delete_todo]
  rw [find?_id_eq_none h]

theorem complete_todo_spec (db : DB) (i : Int)
    (hnd : (db.rows.map Todo.id).Nodup) :
    (∀ t ∈ db.rows, t.id = i →
        (complete_todo db i).2 = 1 ∧
        { t with completed := true } ∈ (complete_todo db i).1.rows) ∧
    ((∀ t ∈ db.rows, t.id ≠ i) → complete_todo db i = (db, 0)) ∧
    (∀ t ∈ db.rows, t.id ≠ i → t ∈ (complete_todo db i).1.rows) ∧
    (∀ u ∈ (complete_todo db i).1.rows, u.id ≠ i → u ∈ db.rows) ∧
    ((complete_todo db i).1.rows.map Todo.id = db.rows.map Todo.id) ∧
    ((complete_todo db i).1.seq = db.seq) ∧
    ((complete_todo (complete_todo db i).1 i).1 = (complete_todo db i).1 ∧
      (complete_todo (complete_todo db i).1 i).2 = (complete_todo db i).2) := by
  refine ⟨?_, ?_, ?_, ?_, completedRows_map_id db.rows i, rfl, ?_, ?_⟩
  · intro t ht hi
    constructor
    · simp only [complete_todo]
      rw [filter_id_eq_single hnd ht hi]
      rfl
    · simp only [complete_todo, completedRows]
      have hm := List.mem_map_of_mem
        (fun t => if t.id == i then { t with completed := true } else t) ht
      simpa [hi] using hm
  · exact complete_todo_of_absent db i
  · intro t ht hi
    simp only [complete_todo, completedRows]
    have hm := List.mem_map_of_mem
      (fun t => if t.id == i then { t with completed := true } else t) ht
    simpa [hi] using hm
  · intro u hu hui
    simp only [complete_todo, completedRows, List.mem_map] at hu
    rcases hu with ⟨t, ht, hft⟩
    by_cases hti : t.id = i
    · exfalso
      apply hui
      rw [← hft]
      simp [hti]
    · rw [← hft]
      simpa [hti] using ht
  · simp only [complete_todo]
    rw [completedRows_idem]
  · simp only [complete_todo]
    rw [completedRows_filter_length]

/-- Concrete run of `complete_todo_spec` on the one-row store: the
existing id 1 reports one affected row and its row becomes completed. -/
theorem complete_todo_spec_witness :
    (complete_todo dbOne 1).2 = 1 ∧
    ({ id := 1, text := "Buy milk", completed := true } : Todo) ∈
      (complete_todo dbOne 1).1.rows :=
  (complete_todo_spec dbOne 1 (by decide)).1
    { id := 1, text := "Buy milk", completed := false } (by decide) (by decide)

/-- Claim C3: deleting an existing id returns the exact pre-deletion
snapshot and removes exactly that row — every other row survives, the
sequence is untouched — while deleting an absent id returns `none` and
changes nothing, so a second delete of the same id returns `none`. -/
theorem delete_todo_spec (db : DB) (i : Int)
    (hnd : (db.rows.map Todo.id).Nodup) :
    (∀ t ∈ db.rows, t.id = i →
        (delete_todo db i).2 = some t ∧
        (∀ u, u ∈ (delete_todo db i).1.rows ↔ (u ∈ db.rows ∧ u.id ≠ i)) ∧
        (delete_todo db i).1.seq = db.seq ∧
        (delete_todo db i).1.rows.length + 1 = db.rows.length ∧
        delete_todo (delete_todo db i).1 i = ((delete_todo db i).1, none)) ∧
    ((∀ t ∈ db.rows, t.id ≠ i) → delete_todo db i = (db, none)) := by
  constructor
  · intro t ht hi
    have hfind := find?_id_eq_some hnd ht hi
    have hdel : delete_todo db i =
        ({ db with rows := db.rows.filter (fun u => !(u.id == i)) }, some t) := by
      simp only [delete_todo]
      rw [hfind]
    have hmem : ∀ u, u ∈ (delete_todo db i).1.rows ↔ (u ∈ db.rows ∧ u.id ≠ i) := by
      intro u
      rw [hdel]
      simp [List.mem_filter]
    refine ⟨by rw [hdel], hmem, by rw [hdel], ?_, ?_⟩
    · have hsplit := length_filter_not_add (fun u => u.id == i) db.rows
      rw [filter_id_eq_single hnd ht hi] at hsplit
      rw [hdel]
      show (db.rows.filter (fun u => !(u.id == i))).length + 1 = db.rows.length
      simp only [List.length_cons, List.length_nil] at hsplit
      omega
    · have hnone : ∀ u ∈ (delete_todo db i).1.rows, u.id ≠ i := by
        intro u hu
        exact ((hmem u).mp hu).2
      exact delete_todo_of_absent _ i hnone
  · exact delete_todo_of_absent db i

/-- Concrete run of `delete_todo_spec` on the one-row store: deleting
id 1 returns the pre-deletion snapshot and a second delete of id 1
returns `none`. -/
theorem delete_todo_spec_witness :
    (delete_todo dbOne 1).2 = some { id := 1, text := "Buy milk", completed := false } ∧
    (delete_todo (delete_todo dbOne 1).1 1).2 = none :=
  have h := (delete_todo_spec dbOne 1 (by decide)).1
    { id := 1, text := "Buy milk", completed := false } (by decide) (by decide)
  ⟨h.1, congrArg Prod.snd h.2.2.2.2⟩

/-- Claim C10: `complete_todo` and `delete_todo` run no validation on
the id (both are plain total functions into `DB × _`, not
`Except ValidationError _`, so no `ValidationError` can arise): any id
without a matching row — zero and negative ids included — yields
affected count 0 from complete and `none` from delete, with the store
unchanged. -/
theorem no_id_validation (db : DB) (i : Int)
    (h : ∀ t ∈ db.rows, t.id ≠ i) :
    complete_todo db i = (db, 0) ∧ delete_todo db i = (db, none) :=
  ⟨complete_todo_of_absent db i h, delete_todo_of_absent db i h⟩

/-- Concrete runs of `no_id_validation` on the one-row store with the
negative id -5 and the zero id. -/
theorem no_id_validation_witness :
    (complete_todo dbOne (-5) = (dbOne, 0) ∧ delete_todo dbOne (-5) = (dbOne, none)) ∧
    (complete_todo dbOne 0 = (dbOne, 0) ∧ delete_todo dbOne 0 = (dbOne, none)) :=
  ⟨no_id_validation dbOne (-5) (by decide), no_id_validation dbOne 0 (by decide)⟩

theorem updatedRows_map_id (rows : List Todo) (i : Int) (s : String) :
    (updatedRows rows i s).map Todo.id = rows.map Todo.id := by
  simp only [updatedRows, List.map_map]
  apply List.map_congr_left
  intro t ht
  by_cases h : t.id = i
  · simp [Function.comp, h]
  · simp [Function.comp, h]

/-- Claim C6: on an existing id and valid text, `update_todo_text`
rewrites only that row's `text` — its id and `completed` flag survive,
every other row survives unchanged, and the sequence and the id
population are untouched — and returns the post-update snapshot. -/
theorem update_todo_text_spec (db : DB) (i : Int) (s : String) (r : Todo)
    (hnd : (db.rows.map Todo.id).Nodup) (hpos : ∀ t ∈ db.rows, 0 < t.id)
    (hr : r ∈ db.rows) (hid : r.id = i)
    (h1 : 1 ≤ (pyStrip s).length) (h3 : s.length ≤ 255) :
    update_todo_text db i s =
      .ok ({ db with rows := updatedRows db.rows i (pyStrip s) },
           some { id := r.id, text := pyStrip s, completed := r.completed }) ∧
    ({ id := r.id, text := pyStrip s, completed := r.completed } : Todo) ∈
      updatedRows db.rows i (pyStrip s) ∧
    (∀ u ∈ db.rows, u.id ≠ i → u ∈ updatedRows db.rows i (pyStrip s)) ∧
    (∀ u ∈ updatedRows db.rows i (pyStrip s), u.id ≠ i → u ∈ db.rows) ∧
    ((updatedRows db.rows i (pyStrip s)).map Todo.id = db.rows.map Todo.id) ∧
    ((updatedRows db.rows i (pyStrip s)).length = db.rows.length) := by
  have hvalid : TodoSchema s (some i) = .ok (pyStrip s) :=
    TodoSchema_someId_ok h1 h3 (hid ▸ hpos r hr)
  have hmem : ({ id := r.id, text := pyStrip s, completed := r.completed } : Todo) ∈
      updatedRows db.rows i (pyStrip s) := by
    simp only [updatedRows]
    have hm := List.mem_map_of_mem
      (fun t => if t.id == i then { t with text := pyStrip s } else t) hr
    simpa [hid] using hm
  have hndu : ((updatedRows db.rows i (pyStrip s)).map Todo.id).Nodup := by
    rw [updatedRows_map_id]
    exact hnd
  have hfind : (updatedRows db.rows i (pyStrip s)).find? (fun t => t.id == i) =
      some { id := r.id, text := pyStrip s, completed := r.completed } :=
    find?_id_eq_some hndu hmem hid
  refine ⟨?_, hmem, ?_, ?_, updatedRows_map_id db.rows i (pyStrip s), ?_⟩
  · simp only [update_todo_text, hvalid, filter_id_eq_single hnd hr hid]
    rw [if_pos (by simp), hfind]
  · intro u hu hui
    simp only [updatedRows]
    have hm := List.mem_map_of_mem
      (fun t => if t.id == i then { t with text := pyStrip s } else t) hu
    simpa [hui] using hm
  · intro u hu hui
    simp only [updatedRows, List.mem_map] at hu
    rcases hu with ⟨t, ht, hft⟩
    by_cases hti : t.id = i
    · exfalso
      apply hui
      rw [← hft]
      simp [hti]
    · rw [← hft]
      simpa [hti] using ht
  · simp only [updatedRows, List.length_map]

/-- Concrete run of `update_todo_text_spec`: rewriting the text of
row 1 of the one-row store returns the post-update snapshot with the
`completed` flag preserved. -/
theorem update_todo_text_spec_witness :
    update_todo_text dbOne 1 "Walk dog" =
      .ok ({ dbOne with rows := updatedRows dbOne.rows 1 (pyStrip "Walk dog") },
           some { id := 1, text := pyStrip "Walk dog", completed := false }) :=
  (update_todo_text_spec dbOne 1 "Walk dog"
    { id := 1, text := "Buy milk", completed := false }
    (by decide) (by decide) (by decide) (by decide) (by decide) (by decide)).1

/-- Claim C7: `list_todos` returns every stored row (a permutation of
the table), strictly ordered by ascending id, and the empty store lists
as the empty sequence; the function is total, so no error is possible. -/
theorem list_todos_spec (db : DB) (hnd : (db.rows.map Todo.id).Nodup) :
    (list_todos db).Perm db.rows ∧
    (list_todos db).Pairwise (fun a b => a.id < b.id) ∧
    (db.rows = [] → list_todos db = []) := by
  refine ⟨sortById_perm db.rows, sortById_sorted_lt hnd, ?_⟩
  intro h
  simp only [list_todos, h]
  rfl

/-- A store whose two rows sit in descending-id insertion order; used to
exercise the ordering clause of `list_todos_spec`. -/
def dbTwoRev : DB :=
  { rows := [{ id := 2, text := "Walk dog", completed := false },
             { id := 1, text := "Buy milk", completed := true }],
    seq := 2 }

/-- Concrete run of `list_todos_spec` on a store holding ids out of
order: the listing is a permutation of the rows and strictly ascending. -/
theorem list_todos_spec_witness :
    (list_todos dbTwoRev).Perm dbTwoRev.rows ∧
    (list_todos dbTwoRev).Pairwise (fun a b => a.id < b.id) ∧
    (dbTwoRev.rows = [] → list_todos dbTwoRev = []) :=
  list_todos_spec dbTwoRev (by decide)

theorem TodoSchema_ok_val {title : String} {idOpt : Option Int} {v : String}
    (h : TodoSchema title idOpt = .ok v) : v = pyStrip title := by
  unfold TodoSchema at h
  split at h
  · cases h
  · split at h
    · cases h
    · split at h
      · cases h
      · cases idOpt with
        | none =>
          injection h with h'
          exact h'.symm
        | some i =>
          simp only at h
          split at h
          · injection h with h'
            exact h'.symm
          · cases h

theorem add_todo_ok_inv {db : DB} {t : String} {db' : DB} {i : Int}
    (h : add_todo db t = .ok (db', i)) :
    db' = { rows := db.rows ++ [{ id := nextId db, text := pyStrip t, completed := false }],
            seq := nextId db } ∧ i = nextId db := by
  unfold add_todo at h
  cases hx : TodoSchema t none with
  | error e =>
    rw [hx] at h
    cases h
  | ok title =>
    rw [hx] at h
    have hv := TodoSchema_ok_val hx
    injection h with h'
    rw [← hv]
    exact ⟨(congrArg Prod.fst h').symm, (congrArg Prod.snd h').symm⟩

theorem applyOp_add_ok {db : DB} {t : String} {db' : DB} {i : Int}
    (h : add_todo db t = .ok (db', i)) : applyOp db (.add t) = db' := by
  simp only [applyOp, h]

theorem applyOp_add_err {db : DB} {t : String} {e : ValidationError}
    (h : add_todo db t = .error e) : applyOp db (.add t) = db := by
  simp only [applyOp, h]

theorem assignedIds_cons_add_ok {db : DB} {t : String} {db' : DB} {i : Int}
    (h : add_todo db t = .ok (db', i)) (ops : List Op) :
    assignedIds db (.add t :: ops) = i :: assignedIds db' ops := by
  simp only [assignedIds, h]

theorem assignedIds_cons_add_err {db : DB} {t : String} {e : ValidationError}
    (h : add_todo db t = .error e) (ops : List Op) :
    assignedIds db (.add t :: ops) = assignedIds db ops := by
  simp only [assignedIds, h]

theorem assignedIds_cons_complete (db : DB) (i : Int) (ops : List Op) :
    assignedIds db (.complete i :: ops) = assignedIds (applyOp db (.complete i)) ops := rfl

theorem assignedIds_cons_delete (db : DB) (i : Int) (ops : List Op) :
    assignedIds db (.delete i :: ops) = assignedIds (applyOp db (.delete i)) ops := rfl

theorem assignedIds_cons_update (db : DB) (i : Int) (t : String) (ops : List Op) :
    assignedIds db (.update i t :: ops) = assignedIds (applyOp db (.update i t)) ops := rfl

theorem update_todo_text_ok_seq {db : DB} {i : Int} {t : String} {db' : DB} {o : Option Todo}
    (h : update_todo_text db i t = .ok (db', o)) : db'.seq = db.seq := by
  unfold update_todo_text at h
  split at h
  · cases h
  · split at h
    · injection h with h'
      injection h' with ha hb
      rw [← ha]
    · injection h with h'
      injection h' with ha hb
      rw [← ha]

theorem applyOp_seq (db : DB) (op : Op) :
    (applyOp db op).seq = db.seq ∨ (applyOp db op).seq = nextId db := by
  cases op with
  | add t =>
    cases hx : add_todo db t with
    | error e =>
      rw [applyOp_add_err hx]
      exact Or.inl rfl
    | ok p =>
      obtain ⟨db', i⟩ := p
      rw [applyOp_add_ok hx]
      rw [(add_todo_ok_inv hx).1]
      exact Or.inr rfl
  | complete i => exact Or.inl rfl
  | delete i =>
    simp only [applyOp, delete_todo]
    cases db.rows.find? (fun t => t.id == i) with
    | none => exact Or.inl rfl
    | some row => exact Or.inl rfl
  | update i t =>
    cases hx : update_todo_text db i t with
    | error e =>
      have happ : applyOp db (.update i t) = db := by simp only [applyOp, hx]
      rw [happ]
      exact Or.inl rfl
    | ok p =>
      obtain ⟨db', o⟩ := p
      have happ : applyOp db (.update i t) = db' := by simp only [applyOp, hx]
      rw [happ, update_todo_text_ok_seq hx]
      exact Or.inl rfl

theorem applyOp_seq_le (db : DB) (op : Op) : db.seq ≤ (applyOp db op).seq := by
  rcases applyOp_seq db op with h | h
  · rw [h]
  · rw [h]
    exact le_of_lt (seq_lt_nextId db)

theorem assignedIds_gt (ops : List Op) (db : DB) :
    ∀ j ∈ assignedIds db ops, db.seq < j := by
  induction ops generalizing db with
  | nil =>
    intro j hj
    cases hj
  | cons op ops ih =>
    intro j hj
    cases op with
    | add t =>
      cases hx : add_todo db t with
      | error e =>
        rw [assignedIds_cons_add_err hx] at hj
        exact ih db j hj
      | ok p =>
        obtain ⟨db', i⟩ := p
        rw [assignedIds_cons_add_ok hx] at hj
        obtain ⟨hdb', hi⟩ := add_todo_ok_inv hx
        rcases List.mem_cons.mp hj with rfl | hjs
        · rw [hi]
          exact seq_lt_nextId db
        · have h1 := ih db' j hjs
          rw [hdb'] at h1
          exact lt_trans (seq_lt_nextId db) h1
    | complete i =>
      rw [assignedIds_cons_complete] at hj
      exact lt_of_le_of_lt (applyOp_seq_le db (.complete i)) (ih _ j hj)
    | delete i =>
      rw [assignedIds_cons_delete] at hj
      exact lt_of_le_of_lt (applyOp_seq_le db (.delete i)) (ih _ j hj)
    | update i t =>
      rw [assignedIds_cons_update] at hj
      exact lt_of_le_of_lt (applyOp_seq_le db (.update i t)) (ih _ j hj)

theorem assignedIds_pos (ops : List Op) (db : DB) :
    ∀ j ∈ assignedIds db ops, 0 < j := by
  induction ops generalizing db with
  | nil =>
    intro j hj
    cases hj
  | cons op ops ih =>
    intro j hj
    cases op with
    | add t =>
      cases hx : add_todo db t with
      | error e =>
        rw [assignedIds_cons_add_err hx] at hj
        exact ih db j hj
      | ok p =>
        obtain ⟨db', i⟩ := p
        rw [assignedIds_cons_add_ok hx] at hj
        rcases List.mem_cons.mp hj with rfl | hjs
        · rw [(add_todo_ok_inv hx).2]
          exact nextId_pos db
        · exact ih db' j hjs
    | complete i =>
      rw [assignedIds_cons_complete] at hj
      exact ih _ j hj
    | delete i =>
      rw [assignedIds_cons_delete] at hj
      exact ih _ j hj
    | update i t =>
      rw [assignedIds_cons_update] at hj
      exact ih _ j hj

theorem assignedIds_sorted (ops : List Op) (db : DB) :
    (assignedIds db ops).Pairwise (fun a b => a < b) := by
  induction ops generalizing db with
  | nil => exact List.Pairwise.nil
  | cons op ops ih =>
    cases op with
    | add t =>
      cases hx : add_todo db t with
      | error e =>
        rw [assignedIds_cons_add_err hx]
        exact ih db
      | ok p =>
        obtain ⟨db', i⟩ := p
        rw [assignedIds_cons_add_ok hx]
        obtain ⟨hdb', hi⟩ := add_todo_ok_inv hx
        refine List.pairwise_cons.mpr ⟨?_, ih db'⟩
        intro j hj
        have h1 := assignedIds_gt ops db' j hj
        rw [hdb'] at h1
        rw [hi]
        exact h1
    | complete i =>
      rw [assignedIds_cons_complete]
      exact ih _
    | delete i =>
      rw [assignedIds_cons_delete]
      exact ih _
    | update i t =>
      rw [assignedIds_cons_update]
      exact ih _

/-- The id-population invariant of reachable stores: every id is
positive and no id occurs twice. -/
def GoodRows (rows : List Todo) : Prop :=
  (∀ x ∈ rows.map Todo.id, 0 < x) ∧ (rows.map Todo.id).Nodup

theorem goodRows_of_map_id_eq {rows rows' : List Todo}
    (h : rows'.map Todo.id = rows.map Todo.id) (hg : GoodRows rows) : GoodRows rows' := by
  constructor
  · rw [h]
    exact hg.1
  · rw [h]
    exact hg.2

theorem goodRows_sublist {rows rows' : List Todo}
    (h : rows'.Sublist rows) (hg : GoodRows rows) : GoodRows rows' := by
  constructor
  · intro x hx
    exact hg.1 x ((h.map Todo.id).subset hx)
  · exact hg.2.sublist (h.map Todo.id)

theorem delete_todo_rows (db : DB) (i : Int) :
    (delete_todo db i).1.rows = db.rows ∨
    (delete_todo db i).1.rows = db.rows.filter (fun t => !(t.id == i)) := by
  simp only [delete_todo]
  cases db.rows.find? (fun t => t.id == i) with
  | none => exact Or.inl rfl
  | some row => exact Or.inr rfl

theorem update_todo_text_ok_map_id {db : DB} {i : Int} {t : String} {db' : DB}
    {o : Option Todo} (h : update_todo_text db i t = .ok (db', o)) :
    db'.rows.map Todo.id = db.rows.map Todo.id := by
  unfold update_todo_text at h
  split at h
  · cases h
  · split at h
    · injection h with h'
      injection h' with ha hb
      rw [← ha]
      exact updatedRows_map_id _ _ _
    · injection h with h'
      injection h' with ha hb
      rw [← ha]

theorem applyOp_good {db : DB} (op : Op) (h : GoodRows db.rows) :
    GoodRows (applyOp db op).rows := by
  cases op with
  | add t =>
    cases hx : add_todo db t with
    | error e =>
      rw [applyOp_add_err hx]
      exact h
    | ok p =>
      obtain ⟨db', i⟩ := p
      rw [applyOp_add_ok hx, (add_todo_ok_inv hx).1]
      constructor
      · intro x hx'
        simp only [List.map_append, List.map_cons, List.map_nil, List.mem_append,
          List.mem_singleton] at hx'
        rcases hx' with hx' | hx'
        · exact h.1 x hx'
        · rw [hx']
          exact nextId_pos db
      · simp only [List.map_append, List.map_cons, List.map_nil]
        rw [List.nodup_append]
        refine ⟨h.2, List.nodup_singleton _, ?_⟩
        intro x hx' hx''
        simp only [List.mem_singleton] at hx''
        rcases List.mem_map.mp hx' with ⟨u, hu, hui⟩
        rw [hx''] at hui
        exact absurd (hui ▸ lt_nextId_of_mem hu) (lt_irrefl _)
  | complete i =>
    exact goodRows_of_map_id_eq (completedRows_map_id db.rows i) h
  | delete i =>
    show GoodRows (delete_todo db i).1.rows
    rcases delete_todo_rows db i with h' | h'
    · rw [h']
      exact h
    · rw [h']
      exact goodRows_sublist (List.filter_sublist _) h
  | update i t =>
    cases hx : update_todo_text db i t with
    | error e =>
      have happ : applyOp db (.update i t) = db := by simp only [applyOp, hx]
      rw [happ]
      exact h
    | ok p =>
      obtain ⟨db', o⟩ := p
      have happ : applyOp db (.update i t) = db' := by simp only [applyOp, hx]
      rw [happ]
      exact goodRows_of_map_id_eq (update_todo_text_ok_map_id hx) h

theorem runOps_good (ops : List Op) (db : DB) (h : GoodRows db.rows) :
    GoodRows (runOps db ops).rows := by
  induction ops generalizing db with
  | nil => exact h
  | cons op ops ih => exact ih (applyOp db op) (applyOp_good op h)

theorem applyOp_ids_sub (db : DB) (op : Op) :
    ∀ x ∈ (applyOp db op).rows.map Todo.id,
      x ∈ db.rows.map Todo.id ∨ x ∈ assignedIds db [op] := by
  cases op with
  | add t =>
    cases hx : add_todo db t with
    | error e =>
      rw [applyOp_add_err hx]
      intro x hx'
      exact Or.inl hx'
    | ok p =>
      obtain ⟨db', i⟩ := p
      rw [applyOp_add_ok hx, (add_todo_ok_inv hx).1, assignedIds_cons_add_ok hx]
      intro x hx'
      simp only [List.map_append, List.map_cons, List.map_nil, List.mem_append,
        List.mem_singleton] at hx'
      rcases hx' with hx' | hx'
      · exact Or.inl hx'
      · right
        rw [hx', (add_todo_ok_inv hx).2]
        exact List.mem_singleton.mpr rfl
  | complete i =>
    intro x hx'
    rw [show (applyOp db (.complete i)).rows = completedRows db.rows i from rfl,
      completedRows_map_id] at hx'
    exact Or.inl hx'
  | delete i =>
    intro x hx'
    left
    rcases delete_todo_rows db i with h' | h'
    · rw [show (applyOp db (.delete i)).rows = (delete_todo db i).1.rows from rfl, h'] at hx'
      exact hx'
    · rw [show (applyOp db (.delete i)).rows = (delete_todo db i).1.rows from rfl, h'] at hx'
      exact ((List.filter_sublist _).map Todo.id).subset hx'
  | update i t =>
    cases hx : update_todo_text db i t with
    | error e =>
      have happ : applyOp db (.update i t) = db := by simp only [applyOp, hx]
      rw [happ]
      intro x hx'
      exact Or.inl hx'
    | ok p =>
      obtain ⟨db', o⟩ := p
      have happ : applyOp db (.update i t) = db' := by simp only [applyOp, hx]
      rw [happ]
      intro x hx'
      rw [update_todo_text_ok_map_id hx] at hx'
      exact Or.inl hx'

theorem assignedIds_cons (db : DB) (op : Op) (ops : List Op) :
    assignedIds db (op :: ops) = assignedIds db [op] ++ assignedIds (applyOp db op) ops := by
  cases op with
  | add t =>
    cases hx : add_todo db t with
    | error e =>
      rw [assignedIds_cons_add_err hx, assignedIds_cons_add_err hx, applyOp_add_err hx]
      rfl
    | ok p =>
      obtain ⟨db', i⟩ := p
      rw [assignedIds_cons_add_ok hx, assignedIds_cons_add_ok hx, applyOp_add_ok hx]
      rfl
  | complete i => rfl
  | delete i => rfl
  | update i t => rfl

theorem runOps_ids_sub (ops : List Op) (db : DB) :
    ∀ t ∈ (runOps db ops).rows, t.id ∈ db.rows.map Todo.id ∨ t.id ∈ assignedIds db ops := by
  induction ops generalizing db with
  | nil =>
    intro t ht
    exact Or.inl (List.mem_map_of_mem Todo.id ht)
  | cons op ops ih =>
    intro t ht
    rcases ih (applyOp db op) t ht with h1 | h1
    · rcases applyOp_ids_sub db op t.id h1 with h2 | h2
      · exact Or.inl h2
      · right
        rw [assignedIds_cons]
        exact List.mem_append.mpr (Or.inl h2)
    · right
      rw [assignedIds_cons]
      exact List.mem_append.mpr (Or.inr h1)

/-- Claim C8: along any sequence of calls from the fresh store, row ids
are positive and unique, every surviving row's id was assigned by some
successful `add_todo`, and the ids handed out by `add_todo` are strictly
increasing in call order — so an id is never reused, not even after its
row is deleted. -/
theorem ids_lifecycle (ops : List Op) :
    (∀ t ∈ (runOps DB.init ops).rows, 0 < t.id) ∧
    ((runOps DB.init ops).rows.map Todo.id).Nodup ∧
    (∀ j ∈ assignedIds DB.init ops, 0 < j) ∧
    (assignedIds DB.init ops).Pairwise (fun a b => a < b) ∧
    (∀ t ∈ (runOps DB.init ops).rows, t.id ∈ assignedIds DB.init ops) := by
  have hg : GoodRows (runOps DB.init ops).rows :=
    runOps_good ops DB.init ⟨by simp [DB.init], by simp [DB.init]⟩
  refine ⟨?_, hg.2, assignedIds_pos ops DB.init, assignedIds_sorted ops DB.init, ?_⟩
  · intro t ht
    exact hg.1 t.id (List.mem_map_of_mem Todo.id ht)
  · intro t ht
    rcases runOps_ids_sub ops DB.init t ht with h | h
    · simp [DB.init] at h
    · exact h

/-- Concrete run of `ids_lifecycle` over adds, a delete and a further
add: the surviving ids are positive and distinct, and the assigned ids
come out strictly increasing. -/
theorem ids_lifecycle_witness :
    (∀ t ∈ (runOps DB.init [.add "a", .add "b", .delete 1, .add "c"]).rows, 0 < t.id) ∧
    ((runOps DB.init [.add "a", .add "b", .delete 1, .add "c"]).rows.map Todo.id).Nodup ∧
    (∀ j ∈ assignedIds DB.init [.add "a", .add "b", .delete 1, .add "c"], 0 < j) ∧
    (assignedIds DB.init [.add "a", .add "b", .delete 1, .add "c"]).Pairwise
      (fun a b => a < b) ∧
    (∀ t ∈ (runOps DB.init [.add "a", .add "b", .delete 1, .add "c"]).rows,
      t.id ∈ assignedIds DB.init [.add "a", .add "b", .delete 1, .add "c"]) :=
  ids_lifecycle [.add "a", .add "b", .delete 1, .add "c"]

/-- A connection-lifecycle event: `sqlite3.connect(DB_NAME)` or
`conn.close()`. -/
inductive ConnEvent where
  | openConn : ConnEvent
  | closeConn : ConnEvent
deriving Repr, DecidableEq

/-- Connection trace of `add_todo`.  Control flow of the source:
validate (before any connection), `connect`, `execute INSERT`,
`commit`, `close`, return.  Each Bool says whether the corresponding
sqlite call succeeds; there is no try/finally, so a failing call
propagates at once.  Result: the open/close events that happened, and
whether an exception propagated out. -/
def addConnTrace (titleValid execOk commitOk : Bool) : List ConnEvent × Bool :=
  if titleValid then
    if execOk then
      if commitOk then ([.openConn, .closeConn], false)
      else ([.openConn], true)
    else ([.openConn], true)
  else ([], true)

/-- Connection trace of `list_todos`: `connect`, `execute SELECT`,
`fetchall`, `close`, return. -/
def listConnTrace (execOk fetchOk : Bool) : List ConnEvent × Bool :=
  if execOk then
    if fetchOk then ([.openConn, .closeConn], false)
    else ([.openConn], true)
  else ([.openConn], true)

/-- Connection trace of `complete_todo`: `connect`, `execute UPDATE`,
`commit`, `close`, return. -/
def completeConnTrace (execOk commitOk : Bool) : List ConnEvent × Bool :=
  if execOk then
    if commitOk then ([.openConn, .closeConn], false)
    else ([.openConn], true)
  else ([.openConn], true)

/-- Connection trace of `delete_todo`: `connect`, `execute SELECT`,
`fetchone`; when a row is found, `execute DELETE`, `commit`, `close`,
return; otherwise `close`, return. -/
def deleteConnTrace (execOk fetchOk rowFound delOk commitOk : Bool) :
    List ConnEvent × Bool :=
  if execOk then
    if fetchOk then
      if rowFound then
        if delOk then
          if commitOk then ([.openConn, .closeConn], false)
          else ([.openConn], true)
        else ([.openConn], true)
      else ([.openConn, .closeConn], false)
    else ([.openConn], true)
  else ([.openConn], true)

/-- Connection trace of `update_todo_text`: validate (before any
connection), `connect`, `execute UPDATE`; when `rowcount > 0`,
`execute SELECT`, `fetchone`, `commit`, `close`, return; otherwise
`close`, return. -/
def updateConnTrace (titleValid updOk rowFound selOk fetchOk commitOk : Bool) :
    List ConnEvent × Bool :=
  if titleValid then
    if updOk then
      if rowFound then
        if selOk then
          if fetchOk then
            if commitOk then ([.openConn, .closeConn], false)
            else ([.openConn], true)
          else ([.openConn], true)
        else ([.openConn], true)
      else ([.openConn, .closeConn], false)
    else ([.openConn], true)
  else ([], true)

/-- Counterexample to claim C9 as stated: when the `INSERT` of
`add_todo` raises a storage error after the connection is opened, the
error propagates while the connection is still open — the trace records
one open and no close, because the source wraps no call in try/finally. -/
theorem connection_leak_counterexample :
    (addConnTrace true false true).2 = true ∧
    (addConnTrace true false true).1.count ConnEvent.openConn = 1 ∧
    (addConnTrace true false true).1.count ConnEvent.closeConn = 0 := by
  decide

/-- Claim C9 amended: every operation opens its own connection (at most
one), a `ValidationError` exit opens none, and on every exit path that
does not propagate a storage error the connection is closed exactly as
often as it was opened; only a storage error raised after `connect`
escapes with the connection unreleased. -/
theorem connTrace_release (a b c d e f : Bool) :
    (((addConnTrace a b c).2 = false →
        (addConnTrace a b c).1.count ConnEvent.closeConn =
          (addConnTrace a b c).1.count ConnEvent.openConn) ∧
      (addConnTrace a b c).1.count ConnEvent.openConn ≤ 1 ∧
      (addConnTrace false b c).1 = []) ∧
    (((listConnTrace a b).2 = false →
        (listConnTrace a b).1.count ConnEvent.closeConn =
          (listConnTrace a b).1.count ConnEvent.openConn) ∧
      (listConnTrace a b).1.count ConnEvent.openConn ≤ 1) ∧
    (((completeConnTrace a b).2 = false →
        (completeConnTrace a b).1.count ConnEvent.closeConn =
          (completeConnTrace a b).1.count ConnEvent.openConn) ∧
      (completeConnTrace a b).1.count ConnEvent.openConn ≤ 1) ∧
    (((deleteConnTrace a b c d e).2 = false →
        (deleteConnTrace a b c d e).1.count ConnEvent.closeConn =
          (deleteConnTrace a b c d e).1.count ConnEvent.openConn) ∧
      (deleteConnTrace a b c d e).1.count ConnEvent.openConn ≤ 1) ∧
    (((updateConnTrace a b c d e f).2 = false →
        (updateConnTrace a b c d e f).1.count ConnEvent.closeConn =
          (updateConnTrace a b c d e f).1.count ConnEvent.openConn) ∧
      (updateConnTrace a b c d e f).1.count ConnEvent.openConn ≤ 1 ∧
      (updateConnTrace false b c d e f).1 = []) := by
  cases a <;> cases b <;> cases c <;> cases d <;> cases e <;> cases f <;> decide

/-- Concrete run of `connTrace_release`: an `add_todo` whose storage
calls all succeed balances its close against its open. -/
theorem connTrace_release_witness :
    (addConnTrace true true true).1.count ConnEvent.closeConn =
      (addConnTrace true true true).1.count ConnEvent.openConn :=
  (connTrace_release true true true true true true).1.1 (by decide)
